import Mathlib

/-!
Shallow embedding of `src/com-gen.py`: the taint-trace node model
(`TaintTrace`), the per-finding linear-chain graph (`TaintTraceGraph`),
the role-by-role intersection test, and the list-concatenating merge.
Strings are modelled as `List Char`; Python `hash` of a node is modelled
as the pair `(offset, context)` it is computed from; a Python `set` of
nodes is modelled as a deduplicated list of such keys.
-/

namespace ComGen

/-- The double-quote character `"`. -/
def dq : Char := Char.ofNat 34

/-- The single-quote (apostrophe) character. -/
def sq : Char := Char.ofNat 39

/-- Python `str.replace` specialised to a single-character pattern:
every occurrence of `c` is replaced by `repl` (one left-to-right pass,
exactly what `str.replace` does for a 1-character pattern). -/
def replace1 (c : Char) (repl : List Char) : List Char → List Char
  | [] => []
  | x :: xs => (if x = c then repl else [x]) ++ replace1 c repl xs

/-- The escaping pipeline of the `TaintTrace.context` property
(`com-gen.py` line 16): `"` → `#quot;`, then `'` → `#apos;`, then
`<` → `&lt;`, then `>` → `&gt;`, then newline → `<br>`, applied in
that order. -/
def escape (s : List Char) : List Char :=
  replace1 '\n' "<br>".toList
    (replace1 '>' "&gt;".toList
      (replace1 '<' "&lt;".toList
        (replace1 sq "#apos;".toList
          (replace1 dq "#quot;".toList s))))

/-- A position record as found in the scanner spans: `line`, `col`,
`offset`. -/
structure Pos where
  line : Int
  col : Int
  offset : Int
deriving DecidableEq

/-- The raw span record handed to `TaintTrace.__init__` by
`associate_info`: `start`/`end` positions plus the `context` substring
already joined in from the source text. -/
structure SpanRec where
  start : Pos
  «end» : Pos
  context : List Char
deriving DecidableEq

/-- The key Python hashing derives a node's hash from:
`(self.offset, self.context)` (`__hash__`, line 31-32), with `context`
the escaped property. -/
abbrev NodeKey := Int × List Char

/-- Model of `TaintTrace`: one taint-trace node.  Fields mirror `__init__`
(lines 6-12): `start`, `end`, `offset = start.offset`, the raw
`_context`, and the mutable successor set `next_traces`, modelled as a
deduplicated list of node keys (Python stores node objects in a `set`,
whose membership is by `__eq__`/`__hash__`, i.e. by key). -/
structure TaintTrace where
  start : Pos
  «end» : Pos
  offset : Int
  _context : List Char
  next_traces : List NodeKey
deriving DecidableEq

/-- Constructor `TaintTrace.__init__` (lines 6-12): built from a span record; the
successor set starts empty. -/
def TaintTrace.ofTrace (trace : SpanRec) : TaintTrace :=
  { start := trace.start
    «end» := trace.«end»
    offset := trace.start.offset
    _context := trace.context
    next_traces := [] }

/-- The `context` property (lines 14-16): the escaped form of the raw
`_context`. -/
def TaintTrace.context (t : TaintTrace) : List Char :=
  escape t._context

/-- The hash key of a node, `hash((self.offset, self.context))`
(lines 31-32), modelled as the pair itself. -/
def TaintTrace.key (t : TaintTrace) : NodeKey :=
  (t.offset, t.context)

/-- Equality `TaintTrace.__eq__` (lines 34-35): offsets equal and escaped
contexts equal. -/
def TaintTrace.beq (a b : TaintTrace) : Bool :=
  a.offset == b.offset && a.context == b.context

/-- Method `set_next_traces` (lines 18-19): replaces the successor set with
`set(next_traces)`. -/
def TaintTrace.set_next_traces (t : TaintTrace) (ns : List TaintTrace) : TaintTrace :=
  { t with next_traces := (ns.map TaintTrace.key).dedup }

/-- Method `update_traces` (lines 21-22): unions nodes into the successor set.
Defined in the source but never called anywhere in the program. -/
def TaintTrace.update_traces (t : TaintTrace) (other : List TaintTrace) : TaintTrace :=
  { t with next_traces := (t.next_traces ++ (other.map TaintTrace.key)).dedup }

/-- Method `to_mermaid_node` (lines 27-29): one directed edge record
`hash(self) --> hash(succ)` per successor. -/
def TaintTrace.to_mermaid_node (t : TaintTrace) : List (NodeKey × NodeKey) :=
  t.next_traces.map (fun k => (t.key, k))

/-- Stable insertion of a node into an offset-sorted list: the new
node goes before the first strictly larger offset and after ties, so
`sortByOffset` agrees with Python's stable `sorted` under
`TaintTrace.__lt__` (lines 37-38: compare by `offset` only). -/
def insertByOffset (t : TaintTrace) : List TaintTrace → List TaintTrace
  | [] => [t]
  | u :: us => if t.offset ≤ u.offset then t :: u :: us else u :: insertByOffset t us

/-- Python `sorted(...)` on node lists (lines 55-57): stable ascending
sort by `offset`. -/
def sortByOffset : List TaintTrace → List TaintTrace
  | [] => []
  | t :: ts => insertByOffset t (sortByOffset ts)

/-- The chaining loop of `TaintTraceGraph.__init__` (lines 58-64):
each node's successor set becomes the singleton holding the next node
of the list, and the last node's successor set becomes the singleton
holding `target`. -/
def chainNodes (target : TaintTrace) : List TaintTrace → List TaintTrace
  | [] => []
  | [t] => [t.set_next_traces [target]]
  | t :: u :: rest => t.set_next_traces [u] :: chainNodes target (u :: rest)

/-- The runtime error the constructor can raise: Python's `IndexError`
from `sources[-1]`, `intermediates[0]` or `sinks[0]` on an empty list. -/
inductive PyError
  | indexError
deriving DecidableEq

/-- Model of `TaintTraceGraph` (lines 52-79): the three role lists of one
finding's trace. -/
structure TaintTraceGraph where
  sources : List TaintTrace
  intermediates : List TaintTrace
  sinks : List TaintTrace
deriving DecidableEq

/-- Constructor `TaintTraceGraph.__init__` (lines 54-67): sort the three lists by
offset, chain consecutive sources, point the last source at the first
intermediate (or, with no intermediates, the first sink), chain
consecutive intermediates, and point the last intermediate at the
first sink.  `sources[-1]` on an empty source list raises `IndexError`,
as does `sinks[0]` when a sink is demanded from an empty sink list. -/
def TaintTraceGraph.init (sources intermediates sinks : List TaintTrace) :
    Except PyError TaintTraceGraph :=
  match sortByOffset sources, sortByOffset intermediates, sortByOffset sinks with
  | [], _, _ => .error .indexError
  | _ :: _, [], [] => .error .indexError
  | _ :: _, _ :: _, [] => .error .indexError
  | s0 :: srest, [], k0 :: ks =>
    .ok { sources := chainNodes k0 (s0 :: srest)
          intermediates := []
          sinks := k0 :: ks }
  | s0 :: srest, i0 :: irest, k0 :: ks =>
    .ok { sources := chainNodes i0 (s0 :: srest)
          intermediates := chainNodes k0 (i0 :: irest)
          sinks := k0 :: ks }

/-- Nonemptiness of `set(a).intersection(b)` under node equality
(`__eq__`/`__hash__`), as used by `intersects`. -/
def listIntersects (a b : List TaintTrace) : Bool :=
  a.any (fun t => b.any (fun u => t.beq u))

/-- Method `TaintTraceGraph.intersects` (lines 69-74): role-by-role set
intersection of sources with sources, intermediates with
intermediates, sinks with sinks. -/
def TaintTraceGraph.intersects (g other : TaintTraceGraph) : Bool :=
  listIntersects g.sources other.sources ||
  listIntersects g.intermediates other.intermediates ||
  listIntersects g.sinks other.sinks

/-- Method `TaintTraceGraph.update` (lines 76-79): `list.extend` of the other
graph's three lists onto this graph's lists — pure concatenation, no
deduplication, no touching of any node's successor set. -/
def TaintTraceGraph.update (g other : TaintTraceGraph) : TaintTraceGraph :=
  { sources := g.sources ++ other.sources
    intermediates := g.intermediates ++ other.intermediates
    sinks := g.sinks ++ other.sinks }

/-- The number of directed edge records emitted over all nodes of the
graph: one per `(node, successor)` pair, i.e. the total size of the
successor sets yielded by `to_mermaid_node` across `sources`,
`intermediates` and `sinks`. -/
def TaintTraceGraph.edgeCount (g : TaintTraceGraph) : Nat :=
  ((g.sources ++ g.intermediates ++ g.sinks).map
    (fun t => t.next_traces.length)).sum

/-- The deduplicated edge set collected by `to_graph` (lines 81-90):
the union of every node's `to_mermaid_node` edge records. -/
def TaintTraceGraph.to_graph_edges (g : TaintTraceGraph) : List (NodeKey × NodeKey) :=
  ((g.sources ++ g.intermediates ++ g.sinks).flatMap
    TaintTrace.to_mermaid_node).dedup

/-- The graphs the batch pipeline can hold: one `init` per finding —
whose input nodes all come fresh from `TaintTrace.__init__` via
`associate_info`, hence with empty successor sets — plus any sequence
of `update` merges performed by the clustering sweep (lines 197-211). -/
inductive BuiltGraph : TaintTraceGraph → Prop
  | ofInit (so im si : List TaintTrace) (g : TaintTraceGraph)
      (hfresh : ∀ t ∈ so ++ im ++ si, t.next_traces = [])
      (h : TaintTraceGraph.init so im si = .ok g) : BuiltGraph g
  | ofUpdate (g h : TaintTraceGraph) : BuiltGraph g → BuiltGraph h →
      BuiltGraph (g.update h)

/-! Concrete nodes used by the closed theorems below. -/

/-- A span whose raw text is one double quote. -/
def quoteNode : TaintTrace := TaintTrace.ofTrace ⟨⟨1, 1, 0⟩, ⟨1, 2, 1⟩, [dq]⟩

/-- A span at the same offset whose raw text is the literal characters
`#quot;` — a different raw substring that escapes to the same text. -/
def quotEntityNode : TaintTrace :=
  TaintTrace.ofTrace ⟨⟨1, 1, 0⟩, ⟨1, 8, 7⟩, "#quot;".toList⟩

def nodeA : TaintTrace := TaintTrace.ofTrace ⟨⟨1, 6, 5⟩, ⟨1, 7, 6⟩, ['A']⟩

def nodeB : TaintTrace := TaintTrace.ofTrace ⟨⟨2, 1, 10⟩, ⟨2, 2, 11⟩, ['B']⟩

def nodeC : TaintTrace := TaintTrace.ofTrace ⟨⟨3, 1, 20⟩, ⟨3, 2, 21⟩, ['C']⟩

def wSource : TaintTrace := TaintTrace.ofTrace ⟨⟨1, 1, 0⟩, ⟨1, 2, 1⟩, ['x']⟩

def wSink : TaintTrace := TaintTrace.ofTrace ⟨⟨1, 4, 3⟩, ⟨1, 5, 4⟩, ['y']⟩

def wSink2 : TaintTrace := TaintTrace.ofTrace ⟨⟨1, 7, 6⟩, ⟨1, 8, 7⟩, ['z']⟩

/-- The graph `init [wSource] [] [wSink]` produces. -/
def wGraph : TaintTraceGraph :=
  { sources := [{ wSource with next_traces := [wSink.key] }]
    intermediates := []
    sinks := [wSink] }

/-- The graph `init [wSource] [] [wSink, wSink2]` produces: two sinks,
still a single edge. -/
def twoSinkGraph : TaintTraceGraph :=
  { sources := [{ wSource with next_traces := [wSink.key] }]
    intermediates := []
    sinks := [wSink, wSink2] }

/-- Equality of constructor results is decidable componentwise. -/
instance : DecidableEq (Except PyError TaintTraceGraph) := fun a b =>
  match a, b with
  | .error x, .error y => decidable_of_iff (x = y) (by simp)
  | .error _, .ok _ => isFalse (by simp)
  | .ok _, .error _ => isFalse (by simp)
  | .ok x, .ok y => decidable_of_iff (x = y) (by simp)

/-- Role-by-role overlap: some node of `a` equals (by node equality:
offset and escaped context) some node of `b`. -/
def RoleOverlap (a b : List TaintTrace) : Prop :=
  ∃ t ∈ a, ∃ u ∈ b, t.offset = u.offset ∧ t.context = u.context

/-- A taint span shared by two findings. -/
def sharedSrc : TaintTrace := TaintTrace.ofTrace ⟨⟨1, 1, 0⟩, ⟨1, 2, 1⟩, ['s']⟩

def sinkOne : TaintTrace := TaintTrace.ofTrace ⟨⟨2, 1, 5⟩, ⟨2, 2, 6⟩, ['a']⟩

def sinkTwo : TaintTrace := TaintTrace.ofTrace ⟨⟨3, 1, 9⟩, ⟨3, 2, 10⟩, ['b']⟩

/-- First finding: `sharedSrc → sinkOne`. -/
def findingOne : TaintTraceGraph :=
  { sources := [{ sharedSrc with next_traces := [sinkOne.key] }]
    intermediates := []
    sinks := [sinkOne] }

/-- Second finding: the same source span, routed to `sinkTwo`. -/
def findingTwo : TaintTraceGraph :=
  { sources := [{ sharedSrc with next_traces := [sinkTwo.key] }]
    intermediates := []
    sinks := [sinkTwo] }

/-- Replacing `c` leaves no occurrence of `c` behind, provided the
replacement text itself contains no `c`. -/
theorem replace1_not_mem_self {c : Char} (repl : List Char) (hc : c ∉ repl) :
    ∀ s, c ∉ replace1 c repl s := by
  intro s
  induction s with
  | nil => simp [replace1]
  | cons x xs ih =>
    simp only [replace1, List.mem_append]
    rintro (h | h)
    · by_cases hx : x = c
      · rw [if_pos hx] at h
        exact hc h
      · rw [if_neg hx] at h
        simp only [List.mem_singleton] at h
        exact hx h.symm
    · exact ih h

/-- Replacing `c` introduces no occurrence of a character `d` that is
absent from both the input and the replacement text. -/
theorem replace1_not_mem {c d : Char} (repl : List Char) (hd : d ∉ repl) :
    ∀ s, d ∉ s → d ∉ replace1 c repl s := by
  intro s
  induction s with
  | nil => intro _; simp [replace1]
  | cons x xs ih =>
    intro hs
    simp only [List.mem_cons, not_or] at hs
    simp only [replace1, List.mem_append]
    rintro (h | h)
    · by_cases hx : x = c
      · rw [if_pos hx] at h
        exact hd h
      · rw [if_neg hx] at h
        simp only [List.mem_singleton] at h
        exact hs.1 h
    · exact ih hs.2 h

/-- Replacing a character that does not occur is the identity. -/
theorem replace1_id {c : Char} (repl : List Char) :
    ∀ s, c ∉ s → replace1 c repl s = s := by
  intro s
  induction s with
  | nil => intro _; rfl
  | cons x xs ih =>
    intro hs
    simp only [List.mem_cons, not_or] at hs
    simp only [replace1]
    rw [if_neg (fun h => hs.1 h.symm), ih hs.2]
    rfl

theorem dq_not_mem_escape (s : List Char) : dq ∉ escape s :=
  replace1_not_mem _ (by decide) _
    (replace1_not_mem _ (by decide) _
      (replace1_not_mem _ (by decide) _
        (replace1_not_mem _ (by decide) _
          (replace1_not_mem_self _ (by decide) s))))

theorem sq_not_mem_escape (s : List Char) : sq ∉ escape s :=
  replace1_not_mem _ (by decide) _
    (replace1_not_mem _ (by decide) _
      (replace1_not_mem _ (by decide) _
        (replace1_not_mem_self _ (by decide) _)))

theorem nl_not_mem_escape (s : List Char) : '\n' ∉ escape s :=
  replace1_not_mem_self _ (by decide) _

/-- With no newline in the raw text, the newline pass of `escape` is
the identity, so no literal `<` survives into the output. -/
theorem lt_not_mem_escape (s : List Char) (h : '\n' ∉ s) : '<' ∉ escape s := by
  unfold escape
  rw [replace1_id _ _
    (replace1_not_mem _ (by decide) _
      (replace1_not_mem _ (by decide) _
        (replace1_not_mem _ (by decide) _
          (replace1_not_mem _ (by decide) _ h))))]
  exact replace1_not_mem _ (by decide) _ (replace1_not_mem_self _ (by decide) _)

/-- With no newline in the raw text, no literal `>` survives into the
output of `escape`. -/
theorem gt_not_mem_escape (s : List Char) (h : '\n' ∉ s) : '>' ∉ escape s := by
  unfold escape
  rw [replace1_id _ _
    (replace1_not_mem _ (by decide) _
      (replace1_not_mem _ (by decide) _
        (replace1_not_mem _ (by decide) _
          (replace1_not_mem _ (by decide) _ h))))]
  exact replace1_not_mem_self _ (by decide) _

/-- On the output of a newline-free input every pass of `escape` finds
nothing to replace, so a second application is the identity. -/
theorem escape_idem (s : List Char) (h : '\n' ∉ s) :
    escape (escape s) = escape s := by
  show replace1 '\n' "<br>".toList
    (replace1 '>' "&gt;".toList
      (replace1 '<' "&lt;".toList
        (replace1 sq "#apos;".toList
          (replace1 dq "#quot;".toList (escape s))))) = escape s
  rw [replace1_id "#quot;".toList (escape s) (dq_not_mem_escape s),
    replace1_id "#apos;".toList (escape s) (sq_not_mem_escape s),
    replace1_id "&lt;".toList (escape s) (lt_not_mem_escape s h),
    replace1_id "&gt;".toList (escape s) (gt_not_mem_escape s h),
    replace1_id "<br>".toList (escape s) (nl_not_mem_escape s)]

theorem mem_insertByOffset {t x : TaintTrace} :
    ∀ {l : List TaintTrace}, x ∈ insertByOffset t l ↔ x = t ∨ x ∈ l := by
  intro l
  induction l with
  | nil => simp [insertByOffset]
  | cons u us ih =>
    simp only [insertByOffset]
    split
    · simp [List.mem_cons]
    · simp only [List.mem_cons, ih]
      tauto

theorem mem_sortByOffset {x : TaintTrace} :
    ∀ {l : List TaintTrace}, x ∈ sortByOffset l ↔ x ∈ l := by
  intro l
  induction l with
  | nil => simp [sortByOffset]
  | cons t ts ih => simp [sortByOffset, mem_insertByOffset, ih]

theorem chainNodes_length (target : TaintTrace) :
    ∀ l, (chainNodes target l).length = l.length := by
  intro l
  induction l with
  | nil => rfl
  | cons t ts ih =>
    cases ts with
    | nil => rfl
    | cons u us =>
      simp only [chainNodes, List.length_cons]
      rw [ih]
      simp

/-- Every node of a chained list carries exactly one successor key:
`set_next_traces` is only ever fed a one-element list. -/
theorem chainNodes_next_length (target : TaintTrace) :
    ∀ l, ∀ t ∈ chainNodes target l, t.next_traces.length = 1 := by
  intro l
  induction l with
  | nil =>
    intro t ht
    simp [chainNodes] at ht
  | cons x xs ih =>
    cases xs with
    | nil =>
      intro t ht
      simp only [chainNodes, List.mem_singleton] at ht
      subst ht
      simp [TaintTrace.set_next_traces]
    | cons u us =>
      intro t ht
      simp only [chainNodes, List.mem_cons] at ht
      rcases ht with h | h
      · subst h
        simp [TaintTrace.set_next_traces]
      · exact ih t h

/-- The chained list emits exactly one edge per node. -/
theorem chainNodes_sum (target : TaintTrace) :
    ∀ l, ((chainNodes target l).map (fun t => t.next_traces.length)).sum
      = l.length := by
  intro l
  induction l with
  | nil => rfl
  | cons x xs ih =>
    cases xs with
    | nil => simp [chainNodes, TaintTrace.set_next_traces]
    | cons u us =>
      simp only [chainNodes, List.map_cons, List.sum_cons, List.length_cons]
      rw [ih]
      simp [TaintTrace.set_next_traces]
      omega

theorem sum_next_sortByOffset_zero {si : List TaintTrace}
    (hsi : ∀ t ∈ si, t.next_traces = []) :
    ((sortByOffset si).map (fun t => t.next_traces.length)).sum = 0 := by
  apply List.sum_eq_zero
  intro x hx
  rcases List.mem_map.mp hx with ⟨t, ht, rfl⟩
  rw [hsi t (mem_sortByOffset.mp ht)]
  rfl

/-- C1 (amended): two nodes are equal per `TaintTrace.__eq__` iff their
offsets and their ESCAPED contexts (the `context` property) match, and
the hash key `(offset, context)` agrees with that equality.  The raw
`_context` and the `start`/`end` positions play no role. -/
theorem node_eq_iff_offset_and_escaped_context (a b : TaintTrace) :
    (TaintTrace.beq a b = true ↔ a.offset = b.offset ∧ a.context = b.context) ∧
    (TaintTrace.beq a b = true ↔ a.key = b.key) := by
  simp [TaintTrace.beq, TaintTrace.key, Prod.ext_iff]

/-- C1 counterexample: a span whose raw text is `"` and a span whose
raw text is the six characters `#quot;` compare equal at the same
offset (escaping is not injective), so equality is NOT determined by
the raw source text the claim names. -/
theorem node_eq_despite_different_raw_context :
    TaintTrace.beq quoteNode quotEntityNode = true ∧
    (quoteNode._context == quotEntityNode._context) = false ∧
    (quoteNode.start == quotEntityNode.start) = true ∧
    (quoteNode.«end» == quotEntityNode.«end») = false := by decide

/-- C3: a graph constructed with zero sources: `sources[-1]` raises a
bare `IndexError` carrying no finding identifier; the driver loop
(lines 185-216) has no handler, so the exception aborts the whole
run. -/
theorem zero_sources_raises_bare_index_error :
    TaintTraceGraph.init [] [] [wSink] = .error .indexError := by decide

/-- C4 (amended): escaping eliminates every literal double quote,
single quote and newline from any raw text; when the raw text contains
no newline it also eliminates every literal `<` and `>` and is
idempotent.  (With a newline, the inserted `<br>` token's `<` and `>`
are re-escaped by a second application — see the counterexample.) -/
theorem escape_converts_and_idempotent_without_newline (s : List Char) :
    (dq ∉ escape s ∧ sq ∉ escape s ∧ '\n' ∉ escape s) ∧
    ('\n' ∉ s →
      escape (escape s) = escape s ∧ '<' ∉ escape s ∧ '>' ∉ escape s) :=
  ⟨⟨dq_not_mem_escape s, sq_not_mem_escape s, nl_not_mem_escape s⟩,
   fun h => ⟨escape_idem s h, lt_not_mem_escape s h, gt_not_mem_escape s h⟩⟩

/-- C4 witness: the amended theorem applied at the concrete raw text
`<"`. -/
theorem escape_converts_witness :
    escape (escape ('<' :: [dq])) = escape ('<' :: [dq]) :=
  ((escape_converts_and_idempotent_without_newline ('<' :: [dq])).2
    (by decide)).1

/-- C4 counterexample: on a raw newline the escaper emits `<br>`, and a
second application turns that into `&lt;br&gt;` — the function is not
idempotent on its own output. -/
theorem escape_not_idempotent_on_newline :
    escape ('\n' :: []) = "<br>".toList ∧
    escape (escape ('\n' :: [])) = "&lt;br&gt;".toList ∧
    (escape (escape ('\n' :: [])) == escape ('\n' :: [])) = false := by decide

/-- C6: `intersects` is true exactly when the two graphs overlap in
some shared role — sources with sources, intermediates with
intermediates, or sinks with sinks — under node equality; a node
shared across two different roles contributes nothing. -/
theorem intersects_iff_rolewise_overlap (g h : TaintTraceGraph) :
    g.intersects h = true ↔
      (RoleOverlap g.sources h.sources ∨
       RoleOverlap g.intermediates h.intermediates ∨
       RoleOverlap g.sinks h.sinks) := by
  simp only [TaintTraceGraph.intersects, listIntersects, RoleOverlap,
    TaintTrace.beq, List.any_eq_true, Bool.and_eq_true, Bool.or_eq_true,
    beq_iff_eq]
  exact or_assoc

theorem listIntersects_symm (a b : List TaintTrace) :
    listIntersects a b = listIntersects b a := by
  rw [Bool.eq_iff_iff]
  simp only [listIntersects, List.any_eq_true, TaintTrace.beq,
    Bool.and_eq_true, beq_iff_eq]
  constructor
  · rintro ⟨t, ht, u, hu, h1, h2⟩
    exact ⟨u, hu, t, ht, h1.symm, h2.symm⟩
  · rintro ⟨t, ht, u, hu, h1, h2⟩
    exact ⟨u, hu, t, ht, h1.symm, h2.symm⟩

/-- C7: `intersects` is symmetric. -/
theorem intersects_symmetric (g h : TaintTraceGraph) :
    g.intersects h = h.intersects g := by
  unfold TaintTraceGraph.intersects
  rw [listIntersects_symm g.sources h.sources,
    listIntersects_symm g.intermediates h.intermediates,
    listIntersects_symm g.sinks h.sinks]

/-- C8: `update` concatenates the other graph's role lists onto this
graph's, so each merged list is the two lists appended in order and
its length is the sum of the two lengths — no deduplication. -/
theorem update_concatenates (g h : TaintTraceGraph) :
    (g.update h).sources = g.sources ++ h.sources ∧
    (g.update h).intermediates = g.intermediates ++ h.intermediates ∧
    (g.update h).sinks = g.sinks ++ h.sinks ∧
    (g.update h).sources.length = g.sources.length + h.sources.length ∧
    (g.update h).intermediates.length
      = g.intermediates.length + h.intermediates.length ∧
    (g.update h).sinks.length = g.sinks.length + h.sinks.length := by
  simp [TaintTraceGraph.update]

/-- C9 (Scenario A): sources given as `[B(offset 10), A(offset 5)]`
with sink `C(offset 20)` come out sorted as `[A, B]`, with `A`'s
successor set exactly `{B}` and `B`'s exactly `{C}`, and `C`
terminal. -/
theorem scenarioA_sorted_and_chained :
    TaintTraceGraph.init [nodeB, nodeA] [] [nodeC] =
      .ok { sources := [{ nodeA with next_traces := [nodeB.key] },
                        { nodeB with next_traces := [nodeC.key] }]
            intermediates := []
            sinks := [nodeC] } := by decide

/-- C5 evaluation at its motivating input: two findings route the same
source span to different sinks; the graphs intersect and are merged,
yet every node object in the merged graph still carries at most one
successor in its successor set — `update` only concatenates lists, and
`update_traces` (the spec's UnionSuccessors) is never called.  The two
continuations appear only as two edges out of the shared hash key in
the rendered edge set. -/
theorem merge_never_unions_successor_sets :
    TaintTraceGraph.init [sharedSrc] [] [sinkOne] = .ok findingOne ∧
    TaintTraceGraph.init [sharedSrc] [] [sinkTwo] = .ok findingTwo ∧
    findingOne.intersects findingTwo = true ∧
    ((findingOne.update findingTwo).sources ++
      (findingOne.update findingTwo).intermediates ++
      (findingOne.update findingTwo).sinks).all
        (fun t => t.next_traces.length == 1 || t.next_traces.length == 0)
      = true ∧
    ((findingOne.update findingTwo).to_graph_edges.filter
        (fun e => e.1 == sharedSrc.key)).length = 2 := by decide

/-- C2 (amended): a successfully constructed graph whose sink inputs
are fresh nodes (empty successor sets, as `associate_info` creates
them) emits exactly `len(sources) + len(intermediates)` edges; this
matches the claimed `len(sources) + len(intermediates) + len(sinks)
- 1` exactly when there is one sink, which holds for every graph the
pipeline builds (each finding is its own single sink span). -/
theorem edge_count_of_constructed_graph
    (so im si : List TaintTrace) (g : TaintTraceGraph)
    (hsi : ∀ t ∈ si, t.next_traces = [])
    (h : TaintTraceGraph.init so im si = .ok g) :
    g.edgeCount = g.sources.length + g.intermediates.length ∧
    (g.sinks.length = 1 →
      g.edgeCount
        = g.sources.length + g.intermediates.length + g.sinks.length - 1) := by
  unfold TaintTraceGraph.init at h
  split at h
  · exact absurd h (by simp)
  · exact absurd h (by simp)
  · exact absurd h (by simp)
  · rename_i s0 srest k0 ks hso him hsik
    rw [Except.ok.injEq] at h
    subst h
    have hz : ((k0 :: ks).map (fun t => t.next_traces.length)).sum = 0 := by
      rw [← hsik]
      exact sum_next_sortByOffset_zero hsi
    have hsum := chainNodes_sum k0 (s0 :: srest)
    have hlen := chainNodes_length k0 (s0 :: srest)
    constructor
    · simp only [TaintTraceGraph.edgeCount, List.map_append, List.sum_append,
        List.map_nil, List.sum_nil, List.length_nil, List.length_cons,
        hsum, hz, hlen]
      omega
    · intro h1
      simp only [List.length_cons] at h1
      simp only [TaintTraceGraph.edgeCount, List.map_append, List.sum_append,
        List.map_nil, List.sum_nil, List.length_nil, List.length_cons,
        hsum, hz, hlen]
      omega
  · rename_i s0 srest i0 irest k0 ks hso him hsik
    rw [Except.ok.injEq] at h
    subst h
    have hz : ((k0 :: ks).map (fun t => t.next_traces.length)).sum = 0 := by
      rw [← hsik]
      exact sum_next_sortByOffset_zero hsi
    have hsum1 := chainNodes_sum i0 (s0 :: srest)
    have hsum2 := chainNodes_sum k0 (i0 :: irest)
    have hlen1 := chainNodes_length i0 (s0 :: srest)
    have hlen2 := chainNodes_length k0 (i0 :: irest)
    constructor
    · simp only [TaintTraceGraph.edgeCount, List.map_append, List.sum_append,
        List.map_nil, List.sum_nil, List.length_nil, List.length_cons,
        hsum1, hsum2, hz, hlen1, hlen2]
      omega
    · intro h1
      simp only [List.length_cons] at h1
      simp only [TaintTraceGraph.edgeCount, List.map_append, List.sum_append,
        List.map_nil, List.sum_nil, List.length_nil, List.length_cons,
        hsum1, hsum2, hz, hlen1, hlen2]
      omega

/-- C2 witness: the amended theorem applied to the graph built from
one source and one sink. -/
theorem edge_count_of_constructed_graph_witness :
    wGraph.edgeCount = wGraph.sources.length + wGraph.intermediates.length :=
  (edge_count_of_constructed_graph [wSource] [] [wSink] wGraph
    (by decide) (by decide)).1

/-- C2 counterexample: constructed with two sinks and non-empty
sources, the graph emits one edge while the claimed formula demands
two. -/
theorem edge_count_formula_fails_with_two_sinks :
    TaintTraceGraph.init [wSource] [] [wSink, wSink2] = .ok twoSinkGraph ∧
    twoSinkGraph.edgeCount = 1 ∧
    twoSinkGraph.sources.length + twoSinkGraph.intermediates.length +
      twoSinkGraph.sinks.length - 1 = 2 ∧
    (twoSinkGraph.edgeCount ==
      twoSinkGraph.sources.length + twoSinkGraph.intermediates.length +
        twoSinkGraph.sinks.length - 1) = false := by decide

/-- C10: every node in the sinks list of any graph the batch can hold
— built by `init` from fresh nodes and merged by any sequence of
`update` calls — has an empty successor set: construction never
chains the sink list and merging never touches a successor set. -/
theorem sinks_stay_terminal (g : TaintTraceGraph) (hb : BuiltGraph g) :
    ∀ t ∈ g.sinks, t.next_traces = [] := by
  induction hb with
  | ofInit so im si g hfresh h =>
    intro t ht
    unfold TaintTraceGraph.init at h
    split at h
    · exact absurd h (by simp)
    · exact absurd h (by simp)
    · exact absurd h (by simp)
    · rename_i s0 srest k0 ks hso him hsik
      rw [Except.ok.injEq] at h
      subst h
      have hts : t ∈ si := by
        apply mem_sortByOffset.mp
        rw [hsik]
        exact ht
      exact hfresh t (by simp [List.mem_append, hts])
    · rename_i s0 srest i0 irest k0 ks hso him hsik
      rw [Except.ok.injEq] at h
      subst h
      have hts : t ∈ si := by
        apply mem_sortByOffset.mp
        rw [hsik]
        exact ht
      exact hfresh t (by simp [List.mem_append, hts])
  | ofUpdate g h hg hh ihg ihh =>
    intro t ht
    rcases List.mem_append.mp ht with h1 | h1
    · exact ihg t h1
    · exact ihh t h1

/-- C10 witness: the invariant applied to the concrete built graph
`wGraph`. -/
theorem sinks_stay_terminal_witness :
    wGraph.sinks.all (fun t => t.next_traces.isEmpty) = true := by
  have hb : BuiltGraph wGraph :=
    BuiltGraph.ofInit [wSource] [] [wSink] wGraph (by decide) (by decide)
  have hterm := sinks_stay_terminal wGraph hb
  rw [List.all_eq_true]
  intro t ht
  rw [hterm t ht]
  rfl

end ComGen
